import Mathlib

/-!
Verification development for the autoshift redemption planning and execution
engine (src/redeem_logic.py, src/auto.py, src/m_redeem.py).

The Python source is shallowly embedded: dataclasses become structures,
dict lookups become functions into `Option`, datetimes become integer UTC
timestamps, and the stateful loops become explicit state-passing recursions.
-/

namespace Autoshift

/-- ASCII whitespace as trimmed by `str.strip()` (space, tab, LF, CR, VT, FF).
The embedding works over the ASCII fragment; every character the code's
regexes keep is ASCII. -/
def isPySpace (c : Char) : Bool :=
  c.toNat = 32 || c.toNat = 9 || c.toNat = 10 || c.toNat = 13 || c.toNat = 11 || c.toNat = 12

/-- ASCII uppercase letter. -/
def isAsciiUpperA (c : Char) : Bool := 65 ≤ c.toNat && c.toNat ≤ 90

/-- ASCII lowercase letter. -/
def isAsciiLowerA (c : Char) : Bool := 97 ≤ c.toNat && c.toNat ≤ 122

/-- ASCII digit. -/
def isAsciiDigitA (c : Char) : Bool := 48 ≤ c.toNat && c.toNat ≤ 57

/-- The character class kept by `_STRIP_RE.sub("", ·)`: the pattern strips
`[^A-Z0-9]` case-insensitively, so exactly ASCII alphanumerics survive. -/
def isAlnumA (c : Char) : Bool := isAsciiUpperA c || isAsciiLowerA c || isAsciiDigitA c

/-- ASCII upper-casing as performed by `str.upper()` on the ASCII fragment. -/
def pyUpperChar (c : Char) : Char :=
  if isAsciiLowerA c then Char.ofNat (c.toNat - 32) else c

/-- `str.strip()`: drop whitespace from both ends. -/
def pyStrip (s : List Char) : List Char :=
  ((s.dropWhile isPySpace).reverse.dropWhile isPySpace).reverse

/-- ASCII lower-casing as performed by `str.lower()` on the ASCII fragment. -/
def pyLowerChar (c : Char) : Char :=
  if isAsciiUpperA c then Char.ofNat (c.toNat + 32) else c

/-- `str.strip()` on `String`s. -/
def pyTrimS (s : String) : String := (pyStrip s.data).asString

/-- `str.lower()` on `String`s. -/
def pyLowerS (s : String) : String := (s.data.map pyLowerChar).asString

/-- Embeds `RedemptionCandidate` from src/redeem_logic.py (lines 24-42).
The `key` field (a database identity row from query.py, outside src/) is
omitted: no classification or merge step reads it.  `expires_at` is an
integer UTC timestamp standing for the parsed `datetime`. -/
structure RedemptionCandidate where
  code : String
  game : String
  platform : String
  reward : String
  origin : String
  source : Option String
  expires_at : Option Int := none
  expired_flag : Bool := false
  preclassified_status : Option String := none
  skip_reason : Option String := none
  previously_redeemed : Bool := false
  previously_redeemed_status : Option String := none
  previously_failed : Option String := none
  failure_detail : Option String := none
  should_record_preclassification : Bool := false
  priority : Nat := 99
deriving DecidableEq, Repr

/-- A persisted outcome row as surfaced by `query.db.fetch_outcomes_for_code`:
the Python code reads `entry.get("status")` and `entry.get("detail")`. -/
structure OutcomeRec where
  status : Option String := none
  detail : Option String := none
deriving DecidableEq, Repr

/-- The body of the `for candidate in candidates` loop of `_apply_skip_logic`
(src/redeem_logic.py lines 238-272).  Returns the mutated candidate and
`true` when it goes to `attempts`, `false` when it goes to `skipped`. -/
def classifyCandidate (redeemed_map failed_map : String × String → Option OutcomeRec)
    (now : Int) (bypass_fail : Bool) (c0 : RedemptionCandidate) :
    RedemptionCandidate × Bool :=
  let failure := failed_map (c0.game, c0.platform)
  let c1 := match failure with
    | some f => { c0 with previously_failed := f.status, failure_detail := f.detail }
    | none => c0
  match redeemed_map (c0.game, c0.platform) with
  | some s =>
      ({ c1 with previously_redeemed := true,
                 previously_redeemed_status := s.status,
                 skip_reason := some "redeemed" }, false)
  | none =>
      let expired_now := c1.expired_flag ||
        (match c1.expires_at with
         | some texp => decide (texp ≤ now)
         | none => false)
      if expired_now && !bypass_fail then
        ({ c1 with preclassified_status := some "EXPIRED",
                   skip_reason := some "expired",
                   should_record_preclassification := failure.isNone }, false)
      else
        let c2 := if expired_now then
            { c1 with preclassified_status := some "EXPIRED",
                      should_record_preclassification := false }
          else c1
        if failure.isSome && !bypass_fail then
          ({ c2 with skip_reason := some "failed" }, false)
        else
          ({ c2 with skip_reason := none }, true)

/-- Embeds `_apply_skip_logic` (src/redeem_logic.py lines 227-274): classify
each candidate in order, appending it to `attempts` or `skipped`.  The two
persisted-outcome maps and `now` replace the `query.db.fetch_outcomes_for_code`
call and `datetime.now`. -/
def _apply_skip_logic (redeemed_map failed_map : String × String → Option OutcomeRec)
    (now : Int) (bypass_fail : Bool) :
    List RedemptionCandidate → List RedemptionCandidate × List RedemptionCandidate
  | [] => ([], [])
  | c :: rest =>
      let r := classifyCandidate redeemed_map failed_map now bypass_fail c
      let acc := _apply_skip_logic redeemed_map failed_map now bypass_fail rest
      if r.2 then (r.1 :: acc.1, acc.2) else (acc.1, r.1 :: acc.2)

/-- Embeds `_ORIGIN_PRIORITY` (src/redeem_logic.py line 19) together with the
`.get(origin, 99)` default used by `_make_candidate`. -/
def _ORIGIN_PRIORITY (origin : String) : Nat :=
  if origin = "db" then 0
  else if origin = "shift" then 1
  else if origin = "fallback" then 2
  else 99

/-- The equal-priority merge arm of `_upsert_candidate` (src/redeem_logic.py
lines 289-300): fill the existing candidate's unknown reward, missing expiry
metadata, missing preclassified status and fallback source from the incoming
record. -/
def mergeTieCandidate (existing candidate : RedemptionCandidate) : RedemptionCandidate :=
  let e1 := if pyLowerS (pyTrimS existing.reward) = "unknown" && pyTrimS candidate.reward ≠ "" then
      { existing with reward := candidate.reward }
    else existing
  let e2 := if e1.expires_at.isNone && candidate.expires_at.isSome then
      { e1 with expires_at := candidate.expires_at,
                expired_flag := candidate.expired_flag }
    else e1
  let e3 := if e2.preclassified_status.isNone && candidate.preclassified_status.isSome then
      { e2 with preclassified_status := candidate.preclassified_status }
    else e2
  if (e3.source = none || e3.source = some "fallback")
      && (match candidate.source with
          | some s => s ≠ ""
          | none => false) then
    { e3 with source := candidate.source }
  else e3

/-- Embeds `_upsert_candidate` (src/redeem_logic.py lines 277-300) acting on a
`(game, platform)`-keyed map modelled as a function into `Option`. -/
def _upsert_candidate (candidates : String × String → Option RedemptionCandidate)
    (candidate : RedemptionCandidate) :
    String × String → Option RedemptionCandidate :=
  let key := (candidate.game, candidate.platform)
  match candidates key with
  | none => fun k => if k = key then some candidate else candidates k
  | some existing =>
      if candidate.priority < existing.priority then
        fun k => if k = key then some candidate else candidates k
      else if candidate.priority > existing.priority then
        candidates
      else
        fun k => if k = key then some (mergeTieCandidate existing candidate) else candidates k

/-- The two lists returned by `_apply_skip_logic` are exactly the classified
images of the input filtered by the attempt/skip decision bit. -/
lemma applySkip_spec (rm fm : String × String → Option OutcomeRec)
    (now : Int) (bypass : Bool) :
    ∀ cands : List RedemptionCandidate,
      (_apply_skip_logic rm fm now bypass cands).1
          = (cands.filter (fun c => (classifyCandidate rm fm now bypass c).2)).map
              (fun c => (classifyCandidate rm fm now bypass c).1)
      ∧ (_apply_skip_logic rm fm now bypass cands).2
          = (cands.filter (fun c => !(classifyCandidate rm fm now bypass c).2)).map
              (fun c => (classifyCandidate rm fm now bypass c).1)
  | [] => by simp [_apply_skip_logic]
  | c :: rest => by
      have ih := applySkip_spec rm fm now bypass rest
      by_cases h : (classifyCandidate rm fm now bypass c).2
      · simp [_apply_skip_logic, h, List.filter_cons, ih.1, ih.2]
      · simp only [Bool.not_eq_true] at h
        simp [_apply_skip_logic, h, List.filter_cons, ih.1, ih.2]

/-- A classified candidate whose decision bit is `false` lands in the skipped
list. -/
lemma mem_skipped_of_classify_false (rm fm : String × String → Option OutcomeRec)
    (now : Int) (bypass : Bool) {cands : List RedemptionCandidate}
    {c : RedemptionCandidate} (hc : c ∈ cands)
    (hfalse : (classifyCandidate rm fm now bypass c).2 = false) :
    (classifyCandidate rm fm now bypass c).1 ∈ (_apply_skip_logic rm fm now bypass cands).2 := by
  rw [(applySkip_spec rm fm now bypass cands).2]
  exact List.mem_map_of_mem _ (List.mem_filter.mpr ⟨hc, by simp [hfalse]⟩)

/-- C1: a candidate whose `(game, platform)` pair has a persisted success
outcome is classified as skipped with skip reason `redeemed`, for either value
of `bypass_fail`, and therefore is never placed in the attempts list. -/
theorem C1_success_skipped_redeemed (rm fm : String × String → Option OutcomeRec)
    (now : Int) (bypass : Bool) (cands : List RedemptionCandidate)
    (c : RedemptionCandidate) (hc : c ∈ cands)
    (hsucc : (rm (c.game, c.platform)).isSome) :
    (classifyCandidate rm fm now bypass c).2 = false
    ∧ (classifyCandidate rm fm now bypass c).1.skip_reason = some "redeemed"
    ∧ (classifyCandidate rm fm now bypass c).1
        ∈ (_apply_skip_logic rm fm now bypass cands).2 := by
  obtain ⟨s, hs⟩ := Option.isSome_iff_exists.mp hsucc
  have hbit : (classifyCandidate rm fm now bypass c).2 = false := by
    simp [classifyCandidate, hs]
  refine ⟨hbit, ?_, mem_skipped_of_classify_false rm fm now bypass hc hbit⟩
  simp [classifyCandidate, hs]

/-- A sample candidate for witness instantiations: pair `(bl3, steam)`. -/
def sampleCand : RedemptionCandidate :=
  { code := "c", game := "bl3", platform := "steam", reward := "Unknown",
    origin := "db", source := none }

/-- A sample outcome map holding a success row for `(bl3, steam)` only. -/
def successAtBl3Steam : String × String → Option OutcomeRec :=
  fun p => if p = ("bl3", "steam") then some { status := some "SUCCESS" } else none

/-- The empty persisted-outcome map. -/
def emptyOutcomes : String × String → Option OutcomeRec := fun _ => none

/-- Witness for C1 at a concrete candidate and outcome map. -/
theorem C1_success_skipped_redeemed_witness :
    (sampleCand ∈ [sampleCand]
      ∧ (successAtBl3Steam (sampleCand.game, sampleCand.platform)).isSome = true)
    ∧ ((classifyCandidate successAtBl3Steam emptyOutcomes 0 true sampleCand).2 = false
        ∧ (classifyCandidate successAtBl3Steam emptyOutcomes 0 true
            sampleCand).1.skip_reason = some "redeemed"
        ∧ (classifyCandidate successAtBl3Steam emptyOutcomes 0 true sampleCand).1
            ∈ (_apply_skip_logic successAtBl3Steam emptyOutcomes 0 true [sampleCand]).2) :=
  ⟨⟨by decide, by decide⟩,
    C1_success_skipped_redeemed _ _ 0 true _ _ (by decide) (by decide)⟩

/-- C2: `_apply_skip_logic` partitions its input: `attempts` is exactly the
classified image of the inputs whose decision bit is attempt, `skipped` the
classified image of the rest, each in input order, and no candidate is dropped
or duplicated (the lengths add up). -/
theorem C2_partition (rm fm : String × String → Option OutcomeRec)
    (now : Int) (bypass : Bool) (cands : List RedemptionCandidate) :
    (_apply_skip_logic rm fm now bypass cands).1
        = (cands.filter (fun c => (classifyCandidate rm fm now bypass c).2)).map
            (fun c => (classifyCandidate rm fm now bypass c).1)
    ∧ (_apply_skip_logic rm fm now bypass cands).2
        = (cands.filter (fun c => !(classifyCandidate rm fm now bypass c).2)).map
            (fun c => (classifyCandidate rm fm now bypass c).1)
    ∧ (_apply_skip_logic rm fm now bypass cands).1.length
        + (_apply_skip_logic rm fm now bypass cands).2.length = cands.length := by
  obtain ⟨h1, h2⟩ := applySkip_spec rm fm now bypass cands
  refine ⟨h1, h2, ?_⟩
  rw [h1, h2]
  simp only [List.length_map]
  exact (List.length_eq_length_filter_add
    (l := cands) (fun c => (classifyCandidate rm fm now bypass c).2)).symm

/-- C4 counterexample: the claim fails on the code in two ways, shown at two
concrete inputs with `bypass_fail = false`.  (1) An expired candidate whose
pair also carries a persisted success outcome is skipped with reason
`redeemed`, not `expired` (the success check in `_apply_skip_logic` runs
first).  (2) An expired candidate whose pair carries a persisted failure
outcome is skipped with reason `expired` but its
`should_record_preclassification` flag is `false`, so the expiry
classification is not flagged for recording. -/
theorem C4_expired_skip_counterexample :
    (let cSucc : RedemptionCandidate :=
      { code := "c", game := "bl3", platform := "steam", reward := "Unknown",
        origin := "db", source := none, expired_flag := true }
     let rm : String × String → Option OutcomeRec :=
      fun p => if p = ("bl3", "steam") then some { status := some "SUCCESS" } else none
     cSucc.expired_flag = true
     ∧ (classifyCandidate rm (fun _ => none) 0 false cSucc).2 = false
     ∧ (classifyCandidate rm (fun _ => none) 0 false cSucc).1.skip_reason = some "redeemed"
     ∧ ¬ (classifyCandidate rm (fun _ => none) 0 false cSucc).1.skip_reason = some "expired")
    ∧ (let cFail : RedemptionCandidate :=
        { code := "c", game := "bl3", platform := "epic", reward := "Unknown",
          origin := "db", source := none, expired_flag := true }
       let fm : String × String → Option OutcomeRec :=
        fun p => if p = ("bl3", "epic") then some { status := some "INVALID" } else none
       cFail.expired_flag = true
       ∧ (classifyCandidate (fun _ => none) fm 0 false cFail).2 = false
       ∧ (classifyCandidate (fun _ => none) fm 0 false cFail).1.skip_reason = some "expired"
       ∧ (classifyCandidate (fun _ => none) fm 0 false cFail).1.should_record_preclassification
           = false) := by
  constructor
  · exact ⟨rfl, by decide, by decide, by decide⟩
  · exact ⟨rfl, by decide, by decide, by decide⟩

/-- C4 as amended: an expired candidate (explicit expired flag or expiry
timestamp at or before `now`) whose pair has **no persisted success outcome**
is, under `bypass_fail = false`, skipped with skip reason `expired` and
preclassified status `EXPIRED`, and its record-as-failure flag is set exactly
when no failure outcome is already persisted for the pair. -/
theorem C4_expired_skip (rm fm : String × String → Option OutcomeRec)
    (now : Int) (cands : List RedemptionCandidate) (c : RedemptionCandidate)
    (hc : c ∈ cands)
    (hnosucc : rm (c.game, c.platform) = none)
    (hexp : c.expired_flag = true ∨ ∃ texp, c.expires_at = some texp ∧ texp ≤ now) :
    (classifyCandidate rm fm now false c).2 = false
    ∧ (classifyCandidate rm fm now false c).1.skip_reason = some "expired"
    ∧ (classifyCandidate rm fm now false c).1.preclassified_status = some "EXPIRED"
    ∧ (classifyCandidate rm fm now false c).1.should_record_preclassification
        = (fm (c.game, c.platform)).isNone
    ∧ (classifyCandidate rm fm now false c).1
        ∈ (_apply_skip_logic rm fm now false cands).2 := by
  have hexpb : ∀ c1 : RedemptionCandidate,
      c1.expired_flag = c.expired_flag → c1.expires_at = c.expires_at →
      (c1.expired_flag ||
        (match c1.expires_at with
         | some texp => decide (texp ≤ now)
         | none => false)) = true := by
    intro c1 hf he
    rw [hf, he]
    rcases hexp with h | ⟨texp, hte, hle⟩
    · simp [h]
    · simp [hte, hle]
  have hbit : (classifyCandidate rm fm now false c).2 = false := by
    cases hfm : fm (c.game, c.platform) with
    | none => simp [classifyCandidate, hnosucc, hfm, hexpb c rfl rfl]
    | some f => simp [classifyCandidate, hnosucc, hfm, hexpb _ rfl rfl]
  refine ⟨hbit, ?_, ?_, ?_, mem_skipped_of_classify_false rm fm now false hc hbit⟩ <;>
    cases hfm : fm (c.game, c.platform) with
  | none => simp [classifyCandidate, hnosucc, hfm, hexpb c rfl rfl]
  | some f => simp [classifyCandidate, hnosucc, hfm, hexpb _ rfl rfl]

/-- A sample candidate carrying an explicit expired flag. -/
def sampleExpiredCand : RedemptionCandidate :=
  { code := "c", game := "bl3", platform := "steam", reward := "Unknown",
    origin := "db", source := none, expired_flag := true }

/-- Witness for the amended C4 at a concrete expired candidate with no prior
outcomes. -/
theorem C4_expired_skip_witness :
    (sampleExpiredCand ∈ [sampleExpiredCand]
      ∧ emptyOutcomes (sampleExpiredCand.game, sampleExpiredCand.platform) = none
      ∧ sampleExpiredCand.expired_flag = true)
    ∧ ((classifyCandidate emptyOutcomes emptyOutcomes 7 false sampleExpiredCand).2 = false
        ∧ (classifyCandidate emptyOutcomes emptyOutcomes 7 false
            sampleExpiredCand).1.skip_reason = some "expired"
        ∧ (classifyCandidate emptyOutcomes emptyOutcomes 7 false
            sampleExpiredCand).1.preclassified_status = some "EXPIRED"
        ∧ (classifyCandidate emptyOutcomes emptyOutcomes 7 false
            sampleExpiredCand).1.should_record_preclassification
            = (emptyOutcomes (sampleExpiredCand.game, sampleExpiredCand.platform)).isNone
        ∧ (classifyCandidate emptyOutcomes emptyOutcomes 7 false sampleExpiredCand).1
            ∈ (_apply_skip_logic emptyOutcomes emptyOutcomes 7 false [sampleExpiredCand]).2) :=
  ⟨⟨by decide, rfl, by decide⟩,
    C4_expired_skip _ _ 7 _ _ (by decide) rfl (Or.inl (by decide))⟩

/-- The tie merge replaces the reward exactly when the existing one is
"Unknown" and the incoming one is non-blank. -/
lemma mergeTie_reward (e c : RedemptionCandidate) :
    (mergeTieCandidate e c).reward
      = if pyLowerS (pyTrimS e.reward) = "unknown" ∧ pyTrimS c.reward ≠ "" then c.reward
        else e.reward := by
  simp only [mergeTieCandidate]
  split_ifs <;> simp_all

/-- The tie merge fills the expiry timestamp exactly when the existing one is
absent and the incoming one is present. -/
lemma mergeTie_expires_at (e c : RedemptionCandidate) :
    (mergeTieCandidate e c).expires_at
      = if e.expires_at.isNone ∧ c.expires_at.isSome then c.expires_at
        else e.expires_at := by
  simp only [mergeTieCandidate]
  split_ifs <;> simp_all

/-- The tie merge fills the expired flag together with the expiry timestamp. -/
lemma mergeTie_expired_flag (e c : RedemptionCandidate) :
    (mergeTieCandidate e c).expired_flag
      = if e.expires_at.isNone ∧ c.expires_at.isSome then c.expired_flag
        else e.expired_flag := by
  simp only [mergeTieCandidate]
  split_ifs <;> simp_all

/-- C3: merging two candidates for the same `(game, platform)` key under
`_upsert_candidate` follows origin priority.  With `c1` already in the map and
`c2` upserted: if `c2`'s origin has strictly higher priority (a strictly
smaller `_ORIGIN_PRIORITY` value, `db` before `shift` before `fallback`) the
stored candidate becomes `c2` wholesale; if strictly lower, the stored
candidate stays `c1` wholesale; only on equal priority is `c1`'s reward
replaced (exactly when it is "Unknown" and `c2`'s reward is non-blank) and its
expiry metadata filled in (exactly when `c1` has none and `c2` has some). -/
theorem C3_origin_priority_merge (m : String × String → Option RedemptionCandidate)
    (c1 c2 : RedemptionCandidate)
    (hm : m (c2.game, c2.platform) = some c1)
    (h1 : c1.priority = _ORIGIN_PRIORITY c1.origin)
    (h2 : c2.priority = _ORIGIN_PRIORITY c2.origin) :
    (_ORIGIN_PRIORITY "db" < _ORIGIN_PRIORITY "shift"
      ∧ _ORIGIN_PRIORITY "shift" < _ORIGIN_PRIORITY "fallback")
    ∧ (_ORIGIN_PRIORITY c2.origin < _ORIGIN_PRIORITY c1.origin →
        _upsert_candidate m c2 (c2.game, c2.platform) = some c2)
    ∧ (_ORIGIN_PRIORITY c1.origin < _ORIGIN_PRIORITY c2.origin →
        _upsert_candidate m c2 (c2.game, c2.platform) = some c1)
    ∧ (_ORIGIN_PRIORITY c1.origin = _ORIGIN_PRIORITY c2.origin →
        ((_upsert_candidate m c2 (c2.game, c2.platform)).map RedemptionCandidate.reward
            = some (if pyLowerS (pyTrimS c1.reward) = "unknown" ∧ pyTrimS c2.reward ≠ "" then
                c2.reward else c1.reward)
          ∧ (_upsert_candidate m c2 (c2.game, c2.platform)).map RedemptionCandidate.expires_at
            = some (if c1.expires_at.isNone ∧ c2.expires_at.isSome then
                c2.expires_at else c1.expires_at)
          ∧ (_upsert_candidate m c2 (c2.game, c2.platform)).map RedemptionCandidate.expired_flag
            = some (if c1.expires_at.isNone ∧ c2.expires_at.isSome then
                c2.expired_flag else c1.expired_flag))) := by
  refine ⟨⟨by decide, by decide⟩, ?_, ?_, ?_⟩
  · intro hlt
    have hp : c2.priority < c1.priority := by rw [h1, h2]; exact hlt
    simp [_upsert_candidate, hm, hp]
  · intro hlt
    have hnlt : ¬ c2.priority < c1.priority := by rw [h1, h2]; omega
    have hgt : c1.priority < c2.priority := by rw [h1, h2]; exact hlt
    simp [_upsert_candidate, hm, hnlt, hgt]
  · intro heq
    have hnlt : ¬ c2.priority < c1.priority := by rw [h1, h2, heq]; omega
    have hngt : ¬ c2.priority > c1.priority := by rw [h1, h2, heq]; omega
    refine ⟨?_, ?_, ?_⟩ <;>
      (simp only [_upsert_candidate, hm]
       rw [if_neg hnlt, if_neg hngt]
       simp [mergeTie_reward, mergeTie_expires_at, mergeTie_expired_flag])

/-- Sample `db`-origin candidate with a known reward, stored in the map. -/
def dbCand : RedemptionCandidate :=
  { code := "c", game := "bl3", platform := "steam", reward := "Golden Key",
    origin := "db", source := some "database", priority := 0 }

/-- Sample `shift`-origin candidate with an unknown reward, upserted second. -/
def shiftCand : RedemptionCandidate :=
  { code := "c", game := "bl3", platform := "steam", reward := "Unknown",
    origin := "shift", source := some "shift_source", priority := 1 }

/-- Sample candidate map holding `dbCand` at `(bl3, steam)`. -/
def upsertSampleMap : String × String → Option RedemptionCandidate :=
  fun p => if p = ("bl3", "steam") then some dbCand else none

/-- Witness for C3: a `shift` record upserted over a stored `db` record leaves
the `db` record untouched. -/
theorem C3_origin_priority_merge_witness :
    (upsertSampleMap (shiftCand.game, shiftCand.platform) = some dbCand
      ∧ dbCand.priority = _ORIGIN_PRIORITY dbCand.origin
      ∧ shiftCand.priority = _ORIGIN_PRIORITY shiftCand.origin
      ∧ _ORIGIN_PRIORITY dbCand.origin < _ORIGIN_PRIORITY shiftCand.origin)
    ∧ _upsert_candidate upsertSampleMap shiftCand (shiftCand.game, shiftCand.platform)
        = some dbCand :=
  ⟨⟨by decide, by decide, by decide, by decide⟩,
    (C3_origin_priority_merge upsertSampleMap dbCand shiftCand
      (by decide) (by decide) (by decide)).2.2.1 (by decide)⟩

/-- Modelled from the spec: the fixed status vocabulary of the remote
redemption client (`shift.Status`, a module outside src/), listed in §4.3 of
the spec and matched member-by-member in src/auto.py and src/m_redeem.py. -/
inductive ShiftStatus where
  | SUCCESS
  | REDEEMED
  | EXPIRED
  | INVALID
  | SLOWDOWN
  | TRYLATER
  | REDIRECT
  | NONE
  | UNKNOWN
deriving DecidableEq, Repr

/-- The `name` attribute of a status member, as read by
`getattr(status, "name", ...)` in src/auto.py. -/
def statusName : ShiftStatus → String
  | .SUCCESS => "SUCCESS"
  | .REDEEMED => "REDEEMED"
  | .EXPIRED => "EXPIRED"
  | .INVALID => "INVALID"
  | .SLOWDOWN => "SLOWDOWN"
  | .TRYLATER => "TRYLATER"
  | .REDIRECT => "REDIRECT"
  | .NONE => "NONE"
  | .UNKNOWN => "UNKNOWN"

/-- Embeds `_failure_label_for_status` (src/auto.py lines 123-136). -/
def _failure_label_for_status (status : ShiftStatus) : String :=
  if status = .EXPIRED then "EXPIRED"
  else if status = .INVALID then "INVALID"
  else if status = .SLOWDOWN then "RATELIMIT"
  else if status = .TRYLATER then "TRYLATER"
  else if status = .REDIRECT then "NETWORK_ERROR"
  else if status = .NONE ∨ status = .UNKNOWN then "UNKNOWN_ERROR"
  else statusName status

/-- The positive outcomes: `status in (Status.SUCCESS, Status.REDEEMED)`
(src/auto.py line 80, src/m_redeem.py lines 22-23). -/
def isPositiveStatus (status : ShiftStatus) : Bool :=
  status = .SUCCESS || status = .REDEEMED

/-- Embeds the `AttemptResult` dataclass of src/m_redeem.py (lines 309-313). -/
structure AttemptResult where
  game : String
  platform : String
  status : ShiftStatus
deriving DecidableEq, Repr

/-- The inner platform loop of `_redeem_across_targets` (src/m_redeem.py lines
327-352) for one game.  The callback models `redeem_cb` together with the
client's `last_status` side channel: `Except.ok s` is a normal return whose
last status is `s`, `Except.error e` is a raised exception, which the loop
catches and converts to `Status.UNKNOWN` before recording the attempt.  The
returned flag is `false` when a `TRYLATER` status stopped the whole run. -/
def redeemPlatforms (cb : String → String → Except String ShiftStatus) (game : String) :
    List String → List AttemptResult × Bool
  | [] => ([], true)
  | platform :: rest =>
      let status := match cb game platform with
        | .ok s => s
        | .error _ => ShiftStatus.UNKNOWN
      let result : AttemptResult := { game := game, platform := platform, status := status }
      if status = .TRYLATER then ([result], false)
      else
        let acc := redeemPlatforms cb game rest
        (result :: acc.1, acc.2)

/-- The outer game loop of `_redeem_across_targets` (src/m_redeem.py lines
316-354): probe every `(game, platform)` target in order, stopping the whole
run on `TRYLATER`. -/
def _redeem_across_targets (cb : String → String → Except String ShiftStatus) :
    List String → List String → List AttemptResult
  | [], _ => []
  | game :: games, platforms =>
      let acc := redeemPlatforms cb game platforms
      if acc.2 then acc.1 ++ _redeem_across_targets cb games platforms
      else acc.1

/-- C7: when the remote redemption callback raises on target
`(game, platform)`, the manual execution loop records that attempt with status
`UNKNOWN` — whose bulk-loop failure label is `UNKNOWN_ERROR` — and continues
with the remaining targets exactly as it otherwise would, instead of
aborting. -/
theorem C7_exception_unknown_continue (cb : String → String → Except String ShiftStatus)
    (game platform : String) (rest : List String) (e : String)
    (hraise : cb game platform = .error e) :
    redeemPlatforms cb game (platform :: rest)
        = (({ game := game, platform := platform, status := ShiftStatus.UNKNOWN } : AttemptResult)
            :: (redeemPlatforms cb game rest).1,
           (redeemPlatforms cb game rest).2)
    ∧ _failure_label_for_status ShiftStatus.UNKNOWN = "UNKNOWN_ERROR" := by
  constructor
  · simp [redeemPlatforms, hraise]
  · rfl

/-- A callback that raises on (bl3, steam) and succeeds elsewhere, for the C7
witness. -/
def raisingCb : String → String → Except String ShiftStatus :=
  fun game platform =>
    if game = "bl3" && platform = "steam" then .error "boom" else .ok ShiftStatus.SUCCESS

/-- Witness for C7: the raising target is recorded as `UNKNOWN` and the next
platform is still attempted. -/
theorem C7_exception_unknown_continue_witness :
    (raisingCb "bl3" "steam" = .error "boom")
    ∧ (redeemPlatforms raisingCb "bl3" ["steam", "epic"]
        = (({ game := "bl3", platform := "steam", status := ShiftStatus.UNKNOWN } : AttemptResult)
            :: (redeemPlatforms raisingCb "bl3" ["epic"]).1,
           (redeemPlatforms raisingCb "bl3" ["epic"]).2)
        ∧ _failure_label_for_status ShiftStatus.UNKNOWN = "UNKNOWN_ERROR") :=
  ⟨rfl, C7_exception_unknown_continue raisingCb "bl3" "steam" ["epic"] "boom" rfl⟩

/-- `_STRIP_RE.sub("", s)` (src/redeem_logic.py line 18): remove every
non-alphanumeric character. -/
def stripNonAlnum (s : List Char) : List Char := s.filter isAlnumA

/-- The character class of `_CODE_RE` (src/redeem_logic.py line 17):
`[A-Z0-9-]` case-insensitively. -/
def codeReChar (c : Char) : Bool := isAlnumA c || c.toNat = 45

/-- `_CODE_RE.match`: the anchored pattern accepts exactly 25 characters drawn
from `[A-Z0-9-]` (five blocks of five). -/
def codeReMatch (s : List Char) : Bool := s.length = 25 && s.all codeReChar

/-- `[candidate[i : i + 5] for i in range(0, 25, 5)]`
(src/redeem_logic.py line 71). -/
def blocks5 (s : List Char) : List (List Char) :=
  [s.take 5, (s.drop 5).take 5, (s.drop 10).take 5, (s.drop 15).take 5, (s.drop 20).take 5]

/-- `"-".join(blocks)` (src/redeem_logic.py line 72). -/
def joinDash (bs : List (List Char)) : List Char := (bs.intersperse ['-']).flatten

/-- Embeds `normalize_shift_code` (src/redeem_logic.py lines 60-72) over
character lists. -/
def normalize_shift_code (raw : List Char) : Option (List Char) :=
  if raw = [] then none
  else
    let candidate := (pyStrip raw).map pyUpperChar
    if !codeReMatch candidate then
      let c2 := stripNonAlnum candidate
      if c2.length ≠ 25 || !(!c2.isEmpty && c2.all isAlnumA) then none
      else some (joinDash (blocks5 c2))
    else some (joinDash (blocks5 (stripNonAlnum candidate)))

/-- `normalize_shift_code` on `String`s, as called from src/auto.py and
src/m_redeem.py. -/
def normalize_shift_codeS (s : String) : Option String :=
  (normalize_shift_code s.data).map List.asString

/-- `Char.ofNat` at a scalar value below the surrogate range keeps its code
point. -/
lemma toNat_charOfNat_of_lt (n : Nat) (h : n < 55296) : (Char.ofNat n).toNat = n := by
  have hv : n.isValidChar := Or.inl h
  rw [Char.ofNat, dif_pos hv]
  simp [Char.ofNatAux, Char.toNat, UInt32.toNat, UInt32.ofNatCore]

/-- Upper-casing never yields an ASCII lowercase letter. -/
lemma not_lower_pyUpperChar (c : Char) : isAsciiLowerA (pyUpperChar c) = false := by
  by_cases h : isAsciiLowerA c
  · have hb : 97 ≤ c.toNat ∧ c.toNat ≤ 122 := by
      simpa [isAsciiLowerA, Bool.and_eq_true, decide_eq_true_eq] using h
    have ht : (pyUpperChar c).toNat = c.toNat - 32 := by
      rw [pyUpperChar, if_pos h]
      exact toNat_charOfNat_of_lt _ (by omega)
    simp only [isAsciiLowerA, ht]
    simp only [Bool.and_eq_false_iff, decide_eq_false_iff_not]
    omega
  · rw [pyUpperChar, if_neg h]
    exact Bool.not_eq_true _ ▸ (by simpa using h)

/-- Upper-casing fixes every character that is not an ASCII lowercase
letter. -/
lemma pyUpperChar_fix (c : Char) (h : isAsciiLowerA c = false) : pyUpperChar c = c := by
  rw [pyUpperChar, if_neg (by simp [h])]

/-- `dropWhile` is the identity on a list none of whose elements satisfy the
predicate. -/
lemma dropWhile_eq_self_of_none {p : Char → Bool} :
    ∀ {l : List Char}, (∀ c ∈ l, p c = false) → l.dropWhile p = l
  | [], _ => rfl
  | c :: l, h => by
      rw [List.dropWhile_cons, if_neg (by simp [h c (List.mem_cons_self c l)])]

/-- `pyStrip` is the identity on a list with no whitespace. -/
lemma pyStrip_eq_self_of_none {l : List Char} (h : ∀ c ∈ l, isPySpace c = false) :
    pyStrip l = l := by
  rw [pyStrip, dropWhile_eq_self_of_none h,
    dropWhile_eq_self_of_none (fun c hc => h c (List.mem_reverse.mp hc)), List.reverse_reverse]

/-- `joinDash` on the five blocks, written out. -/
lemma joinDash_blocks5 (s : List Char) :
    joinDash (blocks5 s)
      = s.take 5 ++ '-' :: ((s.drop 5).take 5 ++ '-' :: ((s.drop 10).take 5
          ++ '-' :: ((s.drop 15).take 5 ++ '-' :: (s.drop 20).take 5))) := by
  simp [joinDash, blocks5, List.intersperse]

/-- Reassembling the five blocks of a 25-character list gives it back. -/
lemma blocks5_concat {s : List Char} (h : s.length = 25) :
    s.take 5 ++ ((s.drop 5).take 5 ++ ((s.drop 10).take 5
        ++ ((s.drop 15).take 5 ++ (s.drop 20).take 5))) = s := by
  have h20 : (s.drop 20).take 5 = s.drop 20 :=
    List.take_of_length_le (by simp [h])
  have e15 : (s.drop 15).take 5 ++ s.drop 20 = s.drop 15 := by
    have hd : s.drop 20 = (s.drop 15).drop 5 := by
      rw [List.drop_drop]
    rw [hd, List.take_append_drop]
  have e10 : (s.drop 10).take 5 ++ s.drop 15 = s.drop 10 := by
    have hd : s.drop 15 = (s.drop 10).drop 5 := by
      rw [List.drop_drop]
    rw [hd, List.take_append_drop]
  have e5 : (s.drop 5).take 5 ++ s.drop 10 = s.drop 5 := by
    have hd : s.drop 10 = (s.drop 5).drop 5 := by
      rw [List.drop_drop]
    rw [hd, List.take_append_drop]
  rw [h20, e15, e10, e5, List.take_append_drop]

/-- A character surviving `stripNonAlnum` after upper-casing is alphanumeric
and not lowercase. -/
lemma mem_stripNonAlnum_upper {l : List Char} {c : Char}
    (h : c ∈ stripNonAlnum (l.map pyUpperChar)) :
    isAlnumA c = true ∧ isAsciiLowerA c = false := by
  have h1 : isAlnumA c = true := List.of_mem_filter h
  have h2 : c ∈ l.map pyUpperChar := List.mem_of_mem_filter h
  obtain ⟨b, _, rfl⟩ := List.mem_map.mp h2
  exact ⟨h1, not_lower_pyUpperChar b⟩

/-- Code characters are not whitespace. -/
lemma codeReChar_not_space {c : Char} (h : codeReChar c = true) : isPySpace c = false := by
  simp only [codeReChar, isAlnumA, isAsciiUpperA, isAsciiLowerA, isAsciiDigitA,
    Bool.or_eq_true, Bool.and_eq_true, decide_eq_true_eq] at h
  simp only [isPySpace, Bool.or_eq_false_iff, decide_eq_false_iff_not]
  omega

/-- Upper-casing fixes a list with no lowercase characters. -/
lemma map_pyUpper_fix : ∀ {l : List Char}, (∀ c ∈ l, isAsciiLowerA c = false) →
    l.map pyUpperChar = l
  | [], _ => rfl
  | c :: t, h => by
      rw [List.map_cons, pyUpperChar_fix c (h c (List.mem_cons_self c t)),
        map_pyUpper_fix (fun x hx => h x (List.mem_cons_of_mem _ hx))]

/-- A character of the dashed block form is the dash or a block character. -/
lemma mem_joinDash_blocks5 {s : List Char} {c : Char}
    (hc : c ∈ joinDash (blocks5 s)) : c = '-' ∨ c ∈ s := by
  rw [joinDash_blocks5] at hc
  simp only [List.mem_append, List.mem_cons] at hc
  rcases hc with h | h | h | h | h | h | h | h | h
  · exact Or.inr (List.mem_of_mem_take h)
  · exact Or.inl h
  · exact Or.inr (List.mem_of_mem_drop (List.mem_of_mem_take h))
  · exact Or.inl h
  · exact Or.inr (List.mem_of_mem_drop (List.mem_of_mem_take h))
  · exact Or.inl h
  · exact Or.inr (List.mem_of_mem_drop (List.mem_of_mem_take h))
  · exact Or.inl h
  · exact Or.inr (List.mem_of_mem_drop (List.mem_of_mem_take h))

/-- C8: on every valid input — one whose characters, after trimming,
upper-casing and removing all non-alphanumerics, form exactly 25 alphanumeric
characters — `normalize_shift_code` returns those 25 characters grouped as
five 5-character dash-separated blocks, and the operation is idempotent. -/
theorem C8_normalize_valid_idempotent (raw : List Char)
    (hvalid : (stripNonAlnum ((pyStrip raw).map pyUpperChar)).length = 25) :
    normalize_shift_code raw
        = some (joinDash (blocks5 (stripNonAlnum ((pyStrip raw).map pyUpperChar))))
    ∧ (blocks5 (stripNonAlnum ((pyStrip raw).map pyUpperChar))).length = 5
    ∧ (∀ b ∈ blocks5 (stripNonAlnum ((pyStrip raw).map pyUpperChar)),
        b.length = 5 ∧ ∀ c ∈ b, isAlnumA c = true)
    ∧ normalize_shift_code
          (joinDash (blocks5 (stripNonAlnum ((pyStrip raw).map pyUpperChar))))
        = some (joinDash (blocks5 (stripNonAlnum ((pyStrip raw).map pyUpperChar)))) := by
  set s := stripNonAlnum ((pyStrip raw).map pyUpperChar) with hs
  have hsall : ∀ c ∈ s, isAlnumA c = true ∧ isAsciiLowerA c = false := by
    intro c hc
    exact mem_stripNonAlnum_upper (hs ▸ hc)
  have hne : raw ≠ [] := by
    intro h
    rw [hs, h] at hvalid
    exact absurd hvalid (by decide)
  have hstep1 : normalize_shift_code raw = some (joinDash (blocks5 s)) := by
    rw [normalize_shift_code, if_neg hne]
    by_cases hm : codeReMatch ((pyStrip raw).map pyUpperChar)
    · simp only [hm, Bool.not_true, Bool.false_eq_true, if_false, ← hs]
    · simp only [Bool.not_eq_true] at hm
      simp only [hm, Bool.not_false, if_true, ← hs]
      rw [if_neg]
      simp only [hvalid, List.isEmpty_iff, Bool.or_eq_true, decide_eq_true_eq]
      push_neg
      refine ⟨by omega, ?_⟩
      have : s ≠ [] := by
        intro h
        rw [h] at hvalid
        simp at hvalid
      simp [this, List.all_eq_true]
      intro c hc
      exact (hsall c hc).1
  refine ⟨hstep1, rfl, ?_, ?_⟩
  · intro b hb
    have hmem : ∀ {t : List Char}, (∀ x ∈ t, x ∈ s) → ∀ c ∈ t, isAlnumA c = true :=
      fun ht c hc => (hsall c (ht c hc)).1
    simp only [blocks5, List.mem_cons, List.not_mem_nil, or_false] at hb
    rcases hb with rfl | rfl | rfl | rfl | rfl
    · exact ⟨by simp [hvalid], hmem fun x hx => List.mem_of_mem_take hx⟩
    · exact ⟨by simp [List.length_take, List.length_drop, hvalid],
        hmem fun x hx => List.mem_of_mem_drop (List.mem_of_mem_take hx)⟩
    · exact ⟨by simp [List.length_take, List.length_drop, hvalid],
        hmem fun x hx => List.mem_of_mem_drop (List.mem_of_mem_take hx)⟩
    · exact ⟨by simp [List.length_take, List.length_drop, hvalid],
        hmem fun x hx => List.mem_of_mem_drop (List.mem_of_mem_take hx)⟩
    · exact ⟨by simp [List.length_take, List.length_drop, hvalid],
        hmem fun x hx => List.mem_of_mem_drop (List.mem_of_mem_take hx)⟩
  · -- idempotence
    have hrchars : ∀ c ∈ joinDash (blocks5 s), codeReChar c = true ∧ isAsciiLowerA c = false := by
      intro c hc
      rcases mem_joinDash_blocks5 hc with rfl | hmem
      · exact ⟨by decide, by decide⟩
      · exact ⟨by simp [codeReChar, (hsall c hmem).1], (hsall c hmem).2⟩
    have hstrip : pyStrip (joinDash (blocks5 s)) = joinDash (blocks5 s) :=
      pyStrip_eq_self_of_none fun c hc => codeReChar_not_space (hrchars c hc).1
    have hupper : (joinDash (blocks5 s)).map pyUpperChar = joinDash (blocks5 s) :=
      map_pyUpper_fix fun c hc => (hrchars c hc).2
    have hlen : (joinDash (blocks5 s)).length = 29 := by
      rw [joinDash_blocks5]
      simp [List.length_take, List.length_drop, hvalid]
    have hfilter : stripNonAlnum (joinDash (blocks5 s)) = s := by
      rw [joinDash_blocks5]
      have hdash : isAlnumA '-' = false := by decide
      have hfix : ∀ {t : List Char}, (∀ x ∈ t, x ∈ s) → t.filter isAlnumA = t :=
        fun ht => List.filter_eq_self.mpr fun x hx => (hsall x (ht x hx)).1
      simp only [stripNonAlnum, List.filter_append, List.filter_cons, hdash,
        Bool.false_eq_true, if_false]
      rw [hfix fun x hx => List.mem_of_mem_take hx,
        hfix fun x hx => List.mem_of_mem_drop (List.mem_of_mem_take hx),
        hfix fun x hx => List.mem_of_mem_drop (List.mem_of_mem_take hx),
        hfix fun x hx => List.mem_of_mem_drop (List.mem_of_mem_take hx),
        hfix fun x hx => List.mem_of_mem_drop (List.mem_of_mem_take hx)]
      exact blocks5_concat hvalid
    have hrne : joinDash (blocks5 s) ≠ [] := by
      intro h
      rw [h] at hlen
      simp at hlen
    rw [normalize_shift_code, if_neg hrne]
    have hnomatch : codeReMatch (joinDash (blocks5 s)) = false := by
      rw [codeReMatch]
      simp [hlen]
    simp only [hstrip, hupper, hnomatch, Bool.not_false, if_true, hfilter]
    rw [if_neg]
    simp only [hvalid, List.isEmpty_iff, Bool.or_eq_true, decide_eq_true_eq]
    push_neg
    refine ⟨by omega, ?_⟩
    have hsne : s ≠ [] := by
      intro h
      rw [h] at hvalid
      simp at hvalid
    simp [hsne, List.all_eq_true]
    intro c hc
    exact (hsall c hc).1

/-- Witness for C8 at a concrete messy but valid input. -/
theorem C8_normalize_valid_idempotent_witness :
    ((stripNonAlnum ((pyStrip " abcde-fghij klmno?pqrst,uvwxy ".data).map
        pyUpperChar)).length = 25)
    ∧ normalize_shift_code " abcde-fghij klmno?pqrst,uvwxy ".data
        = some "ABCDE-FGHIJ-KLMNO-PQRST-UVWXY".data :=
  ⟨by decide,
    by
      have h := (C8_normalize_valid_idempotent
        " abcde-fghij klmno?pqrst,uvwxy ".data (by decide)).1
      rw [h]
      decide⟩

/-- Modelled from the spec: the known-platforms registry and alias resolver
live in query.py, outside src/ (§6: finite, static enumerations with short
canonical identifiers and optional display-name aliases).  `all` stands for
`ALL_SUPPORTED_PLATFORMS` and `shortKey` for `query.get_short_platform_key`,
returning `none` where the Python raises. -/
structure PlatformRegistry where
  all : List String
  shortKey : String → Option String

/-- Embeds `_canonical_platform` (src/redeem_logic.py lines 374-388). -/
def _canonical_platform (reg : PlatformRegistry) (platform : Option String) :
    Option String :=
  match platform with
  | none => none
  | some p =>
      let raw := pyTrimS p
      if raw = "" then none
      else
        let lowered := pyLowerS raw
        if lowered = "manual" || lowered = "universal" then some lowered
        else if lowered ∈ reg.all then some lowered
        else reg.shortKey raw

/-- One iteration of the token loop of `normalize_requested_platforms`
(src/redeem_logic.py lines 81-98).  The accumulator carries the `normalized`
list and the `seen` set (modelled as a list). -/
def platformStep (reg : PlatformRegistry) (acc : List String × List String)
    (token : String) : List String × List String :=
  if token = "" then acc
  else
    match _canonical_platform reg (some token) with
    | none => acc
    | some canonical =>
        if canonical = "manual" then acc
        else if canonical = "universal" then
          reg.all.foldl (fun acc2 plat =>
            if plat ∈ acc2.2 then acc2 else (acc2.1 ++ [plat], acc2.2 ++ [plat])) acc
        else if canonical ∉ reg.all then acc
        else if canonical ∈ acc.2 then acc
        else (acc.1 ++ [canonical], acc.2 ++ [canonical])

/-- Embeds `normalize_requested_platforms` (src/redeem_logic.py lines
75-107); the `ValueError` becomes `Except.error`. -/
def normalize_requested_platforms (reg : PlatformRegistry)
    (platforms : Option (List String)) : Except String (List String) :=
  match platforms with
  | none => .ok reg.all
  | some ps =>
      if ps = [] then .ok reg.all
      else
        let acc := ps.foldl (platformStep reg) ([], [])
        if acc.1 = [] then .error "No supported platforms remain after normalization."
        else
          .ok (acc.1.foldl (fun ordered plat =>
            if plat ∈ ordered then ordered else ordered ++ [plat])
            (reg.all.filter (fun plat => plat ∈ acc.2)))

/-- Loop invariant of the token fold: `seen` equals `normalized` and every
entry is a registry platform. -/
def accInv (reg : PlatformRegistry) (acc : List String × List String) : Prop :=
  acc.2 = acc.1 ∧ ∀ x ∈ acc.1, x ∈ reg.all

/-- The `universal` expansion preserves the loop invariant. -/
lemma universalFold_inv (reg : PlatformRegistry) :
    ∀ (l : List String), (∀ p ∈ l, p ∈ reg.all) →
      ∀ acc, accInv reg acc →
        accInv reg (l.foldl (fun acc2 plat =>
          if plat ∈ acc2.2 then acc2 else (acc2.1 ++ [plat], acc2.2 ++ [plat])) acc)
  | [], _, acc, hinv => hinv
  | p :: l, hl, acc, hinv => by
      rw [List.foldl_cons]
      refine universalFold_inv reg l (fun q hq => hl q (List.mem_cons_of_mem _ hq)) _ ?_
      by_cases hp : p ∈ acc.2
      · simpa [hp] using hinv
      · obtain ⟨hseen, hall⟩ := hinv
        have hp1 : p ∉ acc.1 := hseen ▸ hp
        refine ⟨by simp [hseen, hp1], ?_⟩
        intro x hx
        simp only [if_neg hp, List.mem_append, List.mem_singleton] at hx
        rcases hx with hx | rfl
        · exact hall x hx
        · exact hl x (List.mem_cons_self x l)

/-- Each token step preserves the loop invariant. -/
lemma platformStep_inv (reg : PlatformRegistry) (acc : List String × List String)
    (token : String) (hinv : accInv reg acc) :
    accInv reg (platformStep reg acc token) := by
  rw [platformStep]
  by_cases htok : token = ""
  · simpa [htok] using hinv
  · rw [if_neg htok]
    cases hcan : _canonical_platform reg (some token) with
    | none => exact hinv
    | some canonical =>
        dsimp only
        by_cases hman : canonical = "manual"
        · simpa [hman] using hinv
        · rw [if_neg hman]
          by_cases huni : canonical = "universal"
          · rw [if_pos huni]
            exact universalFold_inv reg reg.all (fun p hp => hp) acc hinv
          · rw [if_neg huni]
            by_cases hsup : canonical ∉ reg.all
            · simpa [hsup] using hinv
            · rw [if_neg hsup]
              push_neg at hsup
              by_cases hseen : canonical ∈ acc.2
              · simpa [hseen] using hinv
              · obtain ⟨hs2, hall⟩ := hinv
                have hseen1 : canonical ∉ acc.1 := hs2 ▸ hseen
                refine ⟨by simp [hs2, hseen1], ?_⟩
                intro x hx
                simp only [if_neg hseen, List.mem_append, List.mem_singleton] at hx
                rcases hx with hx | rfl
                · exact hall x hx
                · exact hsup

/-- The whole token fold preserves the loop invariant. -/
lemma platformFold_inv (reg : PlatformRegistry) :
    ∀ (ps : List String) (acc : List String × List String), accInv reg acc →
      accInv reg (ps.foldl (platformStep reg) acc)
  | [], _, hinv => hinv
  | t :: ps, acc, hinv => by
      rw [List.foldl_cons]
      exact platformFold_inv reg ps _ (platformStep_inv reg acc t hinv)

/-- The trailing append loop of `normalize_requested_platforms` never fires
when every normalized platform is already in `ordered`. -/
lemma appendFold_eq_self :
    ∀ (l ordered : List String), (∀ p ∈ l, p ∈ ordered) →
      l.foldl (fun ordered plat =>
        if plat ∈ ordered then ordered else ordered ++ [plat]) ordered = ordered
  | [], _, _ => rfl
  | p :: l, ordered, h => by
      rw [List.foldl_cons, if_pos (h p (List.mem_cons_self p l))]
      exact appendFold_eq_self l ordered fun q hq => h q (List.mem_cons_of_mem _ hq)

/-- C9: whenever `normalize_requested_platforms` returns without raising, the
result is a non-empty duplicate-free list of registry platforms in the
registry's canonical order, and a `none` or empty input yields the full
registry list.  The registry itself is a static enumeration: duplicate-free
and non-empty. -/
theorem C9_normalized_platform_invariants (reg : PlatformRegistry)
    (hnodup : reg.all.Nodup) (hne : reg.all ≠ [])
    (platforms : Option (List String)) (result : List String)
    (hok : normalize_requested_platforms reg platforms = .ok result) :
    result ≠ [] ∧ result.Nodup ∧ (∀ p ∈ result, p ∈ reg.all)
    ∧ result.Sublist reg.all
    ∧ ((platforms = none ∨ platforms = some []) → result = reg.all) := by
  cases platforms with
  | none =>
      rw [normalize_requested_platforms] at hok
      have hres : reg.all = result := by
        simpa using hok
      subst hres
      exact ⟨hne, hnodup, fun p hp => hp, List.Sublist.refl _, fun _ => rfl⟩
  | some ps =>
      rw [normalize_requested_platforms] at hok
      by_cases hps : ps = []
      · rw [if_pos hps] at hok
        have hres : reg.all = result := by
          simpa using hok
        subst hres
        exact ⟨hne, hnodup, fun p hp => hp, List.Sublist.refl _,
          fun _ => rfl⟩
      · rw [if_neg hps] at hok
        have hinv : accInv reg (ps.foldl (platformStep reg) ([], [])) :=
          platformFold_inv reg ps ([], []) ⟨rfl, by simp⟩
        by_cases hacc : (ps.foldl (platformStep reg) ([], [])).1 = []
        · rw [if_pos hacc] at hok
          exact absurd hok (by simp)
        · rw [if_neg hacc] at hok
          obtain ⟨hseen, hall⟩ := hinv
          have hmemord : ∀ p ∈ (ps.foldl (platformStep reg) ([], [])).1,
              p ∈ reg.all.filter (fun plat => plat ∈ (ps.foldl (platformStep reg) ([], [])).2) := by
            intro p hp
            refine List.mem_filter.mpr ⟨hall p hp, ?_⟩
            simp [hseen, hp]
          rw [appendFold_eq_self _ _ hmemord] at hok
          have hres : reg.all.filter
              (fun plat => plat ∈ (ps.foldl (platformStep reg) ([], [])).2) = result := by
            simpa using hok
          have hsub : result.Sublist reg.all := by
            rw [← hres]
            exact List.filter_sublist reg.all
          refine ⟨?_, hsub.nodup hnodup, fun p hp => hsub.mem hp, hsub, ?_⟩
          · intro hresnil
            obtain ⟨p, hp⟩ := List.exists_mem_of_ne_nil _ hacc
            have : p ∈ result := hres ▸ hmemord p hp
            rw [hresnil] at this
            exact absurd this (List.not_mem_nil p)
          · intro h
            rcases h with h | h
            · exact absurd h (by simp)
            · exact absurd (Option.some.inj h) hps

/-- Decidable equality for the normalizer's result type, used to evaluate
witnesses. -/
instance : DecidableEq (Except String (List String)) :=
  fun a b => match a, b with
  | .ok x, .ok y =>
      if h : x = y then isTrue (by rw [h]) else isFalse (by simp [h])
  | .error x, .error y =>
      if h : x = y then isTrue (by rw [h]) else isFalse (by simp [h])
  | .ok _, .error _ => isFalse (by simp)
  | .error _, .ok _ => isFalse (by simp)

/-- The static platform registry: mirrors `STATIC_PLATFORMS` (src/auto.py line
51), the static copy of query.py's `ALL_SUPPORTED_PLATFORMS`.  The alias
resolver recognizes nothing. -/
def staticRegistry : PlatformRegistry :=
  { all := ["epic", "steam", "xboxlive", "psn", "nintendo", "stadia"],
    shortKey := fun _ => none }

/-- Witness for C9 at a concrete duplicated, mixed-case request. -/
theorem C9_normalized_platform_invariants_witness :
    (staticRegistry.all.Nodup ∧ staticRegistry.all ≠ []
      ∧ normalize_requested_platforms staticRegistry (some ["steam", "Epic", "steam"])
          = .ok ["epic", "steam"])
    ∧ (["epic", "steam"] ≠ [] ∧ (["epic", "steam"] : List String).Nodup
        ∧ (∀ p ∈ (["epic", "steam"] : List String), p ∈ staticRegistry.all)
        ∧ (["epic", "steam"] : List String).Sublist staticRegistry.all
        ∧ ((some ["steam", "Epic", "steam"] = (none : Option (List String))
            ∨ some ["steam", "Epic", "steam"] = some ([] : List String)) →
            (["epic", "steam"] : List String) = staticRegistry.all)) :=
  ⟨⟨by decide, by decide, by decide⟩,
    C9_normalized_platform_invariants staticRegistry (by decide) (by decide)
      (some ["steam", "Epic", "steam"]) ["epic", "steam"] (by decide)⟩

/-- The disposition tag returned by `_find_candidate` (src/auto.py lines
107-116): `"attempt"` or `"skip"`. -/
inductive Disposition where
  | attempt
  | skip
deriving DecidableEq, Repr

/-- A queue entry of the bulk loop: the raw key code, plus the outcome of the
mode-filter block (src/auto.py lines 782-806), which depends only on the key's
reward and the CLI mode flags and is precomputed here as `modeSkip`. -/
structure QueueItem where
  code : String
  modeSkip : Bool
deriving DecidableEq, Repr

/-- One `(game, platform)` batch of the bulk run with its pending redemption
queue (src/auto.py lines 528-533 and 766).  The limit-driven refill of the
pending queue on a skip (lines 844-856) only chooses which items enter the
queue; the theorems below quantify over every possible queue. -/
structure Batch where
  game : String
  platform : String
  items : List QueueItem
deriving Repr

/-- Per-run mutable state of the bulk loop: the `processed_pairs` seen-set
(src/auto.py line 517), and the triples whose cached plan candidate has had
`should_record_preclassification` cleared after recording the preclassified
expiry (src/auto.py line 830). -/
structure RunState where
  processed : List (String × String × String)
  clearedPre : List (String × String × String)
deriving DecidableEq, Repr

/-- Observable actions of the bulk loop: entering the per-candidate
redemption step, one raw remote call, a persisted success row
(`db.set_redeemed` inside `redeem`), the rate-limit retry sleep, and a
persisted failure row (`db.record_failure`). -/
inductive RunEvent where
  | attemptStart (t : String × String × String)
  | redeemCall (t : String × String × String)
  | recordSuccess (t : String × String × String)
  | sleepRetry (t : String × String × String) (seconds : Nat)
  | recordFailure (t : String × String × String) (label : String)
deriving DecidableEq, Repr

/-- The retry loop around `redeem(attempt_key)` (src/auto.py lines 873-891)
and the outcome recording that follows it (lines 895-952), for one candidate.
`redeemFn t retry` gives the status of the remote call, the flag marking the
second call after a first SLOWDOWN; `redeem` itself records a success row on a
positive status (src/auto.py lines 80-82).  A second SLOWDOWN is downgraded to
TRYLATER before recording.  Returns the emitted events and `false` exactly
when a TRYLATER failure makes `main` return. -/
def runAttempt (redeemFn : String × String × String → Bool → ShiftStatus)
    (t : String × String × String) : List RunEvent × Bool :=
  let s1 := redeemFn t false
  if s1 = .SLOWDOWN then
    let s2 := redeemFn t true
    let evs := [RunEvent.redeemCall t, RunEvent.sleepRetry t 60, RunEvent.redeemCall t]
      ++ (if isPositiveStatus s2 then [RunEvent.recordSuccess t] else [])
    if isPositiveStatus s2 then (evs, true)
    else
      let final := if s2 = .SLOWDOWN then ShiftStatus.TRYLATER else s2
      (evs ++ [RunEvent.recordFailure t (_failure_label_for_status final)],
       decide (final ≠ ShiftStatus.TRYLATER))
  else
    let evs := [RunEvent.redeemCall t]
      ++ (if isPositiveStatus s1 then [RunEvent.recordSuccess t] else [])
    if isPositiveStatus s1 then (evs, true)
    else
      (evs ++ [RunEvent.recordFailure t (_failure_label_for_status s1)],
       decide (s1 ≠ ShiftStatus.TRYLATER))

/-- `normalize_shift_code(key.code) or key.code` (src/auto.py line 808). -/
def normCode (item : QueueItem) : String :=
  (normalize_shift_codeS item.code).getD item.code

/-- Processing of one queue item in the bulk loop body (src/auto.py lines
771-952).  `findCand nc game platform` models `_load_plan` followed by
`_find_candidate`: the per-run plan cache keyed on the normalized code makes
the lookup a function of its three arguments within one run.  Returns the
updated state, the emitted events, and `false` when the TRYLATER early return
fires. -/
def processItem
    (findCand : String → String → String → Option (RedemptionCandidate × Disposition))
    (redeemFn : String × String × String → Bool → ShiftStatus)
    (game platform : String) (st : RunState) (item : QueueItem) :
    RunState × List RunEvent × Bool :=
  if item.modeSkip then (st, [], true)
  else
    match findCand (normCode item) game platform with
    | none => (st, [], true)
    | some (cand, Disposition.skip) =>
        if cand.skip_reason = some "expired" ∧ cand.should_record_preclassification
            ∧ (normCode item, game, platform) ∉ st.clearedPre then
          ({ processed := (normCode item, game, platform) :: st.processed,
             clearedPre := (normCode item, game, platform) :: st.clearedPre },
           [RunEvent.recordFailure (normCode item, game, platform)
              (cand.preclassified_status.getD "EXPIRED")], true)
        else
          ({ st with processed := (normCode item, game, platform) :: st.processed }, [], true)
    | some (_, Disposition.attempt) =>
        if (normCode item, game, platform) ∈ st.processed then (st, [], true)
        else
          ({ st with processed := (normCode item, game, platform) :: st.processed },
           RunEvent.attemptStart (normCode item, game, platform)
             :: (runAttempt redeemFn (normCode item, game, platform)).1,
           (runAttempt redeemFn (normCode item, game, platform)).2)

/-- The `while pending_queue` loop (src/auto.py line 771) over the pending
queue of one `(game, platform)` batch, propagating the TRYLATER early
return. -/
def runItems
    (findCand : String → String → String → Option (RedemptionCandidate × Disposition))
    (redeemFn : String × String × String → Bool → ShiftStatus)
    (game platform : String) :
    RunState → List QueueItem → RunState × List RunEvent × Bool
  | st, [] => (st, [], true)
  | st, item :: rest =>
      let r := processItem findCand redeemFn game platform st item
      if r.2.2 then
        let r2 := runItems findCand redeemFn game platform r.1 rest
        (r2.1, r.2.1 ++ r2.2.1, r2.2.2)
      else (r.1, r.2.1, false)

/-- The nested `for game / for platform` loops of `main` (src/auto.py lines
528-529): run each batch in order; a batch ending in the TRYLATER early
return ends the whole run. -/
def runBatches
    (findCand : String → String → String → Option (RedemptionCandidate × Disposition))
    (redeemFn : String × String × String → Bool → ShiftStatus) :
    RunState → List Batch → RunState × List RunEvent
  | st, [] => (st, [])
  | st, b :: rest =>
      let r := runItems findCand redeemFn b.game b.platform st b.items
      if r.2.2 then
        let r2 := runBatches findCand redeemFn r.1 rest
        (r2.1, r.2.1 ++ r2.2)
      else (r.1, r.2.1)

/-- Number of per-candidate redemption-step entries for triple `t`. -/
def attemptsOf (t : String × String × String) (evs : List RunEvent) : Nat :=
  evs.count (RunEvent.attemptStart t)

/-- Number of raw remote redemption calls for triple `t`. -/
def callsOf (t : String × String × String) (evs : List RunEvent) : Nat :=
  evs.count (RunEvent.redeemCall t)

/-- `runAttempt` never emits an attempt-start event. -/
lemma runAttempt_attempts_zero (rf : String × String × String → Bool → ShiftStatus)
    (t t' : String × String × String) :
    attemptsOf t' (runAttempt rf t).1 = 0 := by
  rw [runAttempt]
  simp only [apply_ite Prod.fst]
  split_ifs <;>
    simp_all [attemptsOf, List.count_cons, List.count_append]

/-- `runAttempt` only calls the remote endpoint for its own triple. -/
lemma runAttempt_calls_other (rf : String × String × String → Bool → ShiftStatus)
    {t t' : String × String × String} (h : t' ≠ t) :
    callsOf t' (runAttempt rf t).1 = 0 := by
  rw [runAttempt]
  simp only [apply_ite Prod.fst]
  split_ifs <;>
    simp_all [callsOf, List.count_cons, List.count_append]

/-- `runAttempt` makes at most two raw remote calls. -/
lemma runAttempt_calls_le_two (rf : String × String × String → Bool → ShiftStatus)
    (t t' : String × String × String) :
    callsOf t' (runAttempt rf t).1 ≤ 2 := by
  by_cases ht : t' = t
  · subst ht
    rw [runAttempt]
    simp only [apply_ite Prod.fst]
    split_ifs <;>
      simp_all [callsOf, List.count_cons, List.count_append]
  · have h0 := runAttempt_calls_other rf ht
    omega

/-- Unfolding `attemptsOf` over a cons. -/
lemma attemptsOf_cons (t : String × String × String) (e : RunEvent) (evs : List RunEvent) :
    attemptsOf t (e :: evs)
      = attemptsOf t evs + (if e = RunEvent.attemptStart t then 1 else 0) := by
  simp [attemptsOf, List.count_cons]

/-- Unfolding `callsOf` over a cons. -/
lemma callsOf_cons (t : String × String × String) (e : RunEvent) (evs : List RunEvent) :
    callsOf t (e :: evs)
      = callsOf t evs + (if e = RunEvent.redeemCall t then 1 else 0) := by
  simp [callsOf, List.count_cons]

/-- `attemptsOf` is additive over append. -/
lemma attemptsOf_append (t : String × String × String) (e1 e2 : List RunEvent) :
    attemptsOf t (e1 ++ e2) = attemptsOf t e1 + attemptsOf t e2 := by
  simp [attemptsOf, List.count_append]

/-- `callsOf` is additive over append. -/
lemma callsOf_append (t : String × String × String) (e1 e2 : List RunEvent) :
    callsOf t (e1 ++ e2) = callsOf t e1 + callsOf t e2 := by
  simp [callsOf, List.count_append]

/-- Count bundle for one item: the seen-set only grows, at most one
attempt-start is emitted, an attempt-start means the triple was fresh and is
now in the seen-set, and remote calls are bounded by twice the
attempt-starts. -/
lemma processItem_counts
    (fc : String → String → String → Option (RedemptionCandidate × Disposition))
    (rf : String × String × String → Bool → ShiftStatus)
    (g p : String) (st : RunState) (item : QueueItem) :
    (∀ u ∈ st.processed, u ∈ (processItem fc rf g p st item).1.processed)
    ∧ (∀ t, attemptsOf t (processItem fc rf g p st item).2.1 ≤ 1)
    ∧ (∀ t, 1 ≤ attemptsOf t (processItem fc rf g p st item).2.1 →
        t ∉ st.processed ∧ t ∈ (processItem fc rf g p st item).1.processed)
    ∧ (∀ t, callsOf t (processItem fc rf g p st item).2.1
        ≤ 2 * attemptsOf t (processItem fc rf g p st item).2.1) := by
  rw [processItem]
  by_cases hmode : item.modeSkip
  · simp [hmode, attemptsOf, callsOf]
  · rw [if_neg hmode]
    rcases hfc : fc (normCode item) g p with _ | ⟨cand, disp⟩
    · simp [attemptsOf, callsOf]
    · cases disp with
      | skip =>
          dsimp only
          split_ifs with hrec
          · refine ⟨fun u hu => List.mem_cons_of_mem _ hu, ?_, ?_, ?_⟩ <;>
              intro t <;>
              simp [attemptsOf, callsOf, List.count_cons]
          · exact ⟨fun u hu => List.mem_cons_of_mem _ hu,
              fun t => by simp [attemptsOf],
              fun t ht => absurd ht (by simp [attemptsOf]),
              fun t => by simp [attemptsOf, callsOf]⟩
      | attempt =>
          dsimp only
          split_ifs with hproc
          · simp [attemptsOf, callsOf]
          · refine ⟨fun u hu => List.mem_cons_of_mem _ hu, ?_, ?_, ?_⟩
            · intro t
              rw [attemptsOf_cons, runAttempt_attempts_zero rf _ t]
              split_ifs <;> omega
            · intro t ht
              rw [attemptsOf_cons, runAttempt_attempts_zero rf _ t] at ht
              by_cases heq : RunEvent.attemptStart (normCode item, g, p)
                  = RunEvent.attemptStart t
              · have ht' : t = (normCode item, g, p) := by
                  simpa using heq.symm
                subst ht'
                exact ⟨hproc, List.mem_cons_self _ _⟩
              · rw [if_neg heq] at ht
                omega
            · intro t
              by_cases heq : t = (normCode item, g, p)
              · subst heq
                rw [attemptsOf_cons, runAttempt_attempts_zero rf _ _, callsOf_cons]
                have h2 := runAttempt_calls_le_two rf (normCode item, g, p)
                  (normCode item, g, p)
                split_ifs <;> simp_all
              · rw [attemptsOf_cons, runAttempt_attempts_zero rf _ t,
                  callsOf_cons, runAttempt_calls_other rf heq]
                split_ifs <;> simp_all

/-- Count bundle for a whole batch queue. -/
lemma runItems_counts
    (fc : String → String → String → Option (RedemptionCandidate × Disposition))
    (rf : String × String × String → Bool → ShiftStatus) (g p : String) :
    ∀ (items : List QueueItem) (st : RunState),
    (∀ u ∈ st.processed, u ∈ (runItems fc rf g p st items).1.processed)
    ∧ (∀ t, attemptsOf t (runItems fc rf g p st items).2.1 ≤ 1)
    ∧ (∀ t, 1 ≤ attemptsOf t (runItems fc rf g p st items).2.1 →
        t ∉ st.processed ∧ t ∈ (runItems fc rf g p st items).1.processed)
    ∧ (∀ t, callsOf t (runItems fc rf g p st items).2.1
        ≤ 2 * attemptsOf t (runItems fc rf g p st items).2.1)
  | [], st => by
      simp [runItems, attemptsOf, callsOf]
  | item :: rest, st => by
      obtain ⟨m1, a1, f1, c1⟩ := processItem_counts fc rf g p st item
      obtain ⟨m2, a2, f2, c2⟩ :=
        runItems_counts fc rf g p rest (processItem fc rf g p st item).1
      simp only [runItems]
      by_cases hcont : (processItem fc rf g p st item).2.2
      · rw [if_pos hcont]
        dsimp only
        refine ⟨fun u hu => m2 u (m1 u hu), ?_, ?_, ?_⟩
        · intro t
          rw [attemptsOf_append]
          by_cases h1 : 1 ≤ attemptsOf t (processItem fc rf g p st item).2.1
          · have hzero : attemptsOf t
                (runItems fc rf g p (processItem fc rf g p st item).1 rest).2.1 = 0 := by
              by_contra hne
              exact (f2 t (Nat.one_le_iff_ne_zero.mpr hne)).1 (f1 t h1).2
            have := a1 t
            omega
          · have := a2 t
            omega
        · intro t ht
          rw [attemptsOf_append] at ht
          by_cases h1 : 1 ≤ attemptsOf t (processItem fc rf g p st item).2.1
          · exact ⟨(f1 t h1).1, m2 t (f1 t h1).2⟩
          · have h2 : 1 ≤ attemptsOf t
                (runItems fc rf g p (processItem fc rf g p st item).1 rest).2.1 := by
              omega
            exact ⟨fun hst => (f2 t h2).1 (m1 t hst), (f2 t h2).2⟩
        · intro t
          rw [attemptsOf_append, callsOf_append]
          have := c1 t
          have := c2 t
          omega
      · rw [if_neg hcont]
        exact ⟨m1, a1, f1, c1⟩

/-- Count bundle for a whole bulk run. -/
lemma runBatches_counts
    (fc : String → String → String → Option (RedemptionCandidate × Disposition))
    (rf : String × String × String → Bool → ShiftStatus) :
    ∀ (batches : List Batch) (st : RunState),
    (∀ u ∈ st.processed, u ∈ (runBatches fc rf st batches).1.processed)
    ∧ (∀ t, attemptsOf t (runBatches fc rf st batches).2 ≤ 1)
    ∧ (∀ t, 1 ≤ attemptsOf t (runBatches fc rf st batches).2 →
        t ∉ st.processed ∧ t ∈ (runBatches fc rf st batches).1.processed)
    ∧ (∀ t, callsOf t (runBatches fc rf st batches).2
        ≤ 2 * attemptsOf t (runBatches fc rf st batches).2)
  | [], st => by
      simp [runBatches, attemptsOf, callsOf]
  | b :: rest, st => by
      obtain ⟨m1, a1, f1, c1⟩ := runItems_counts fc rf b.game b.platform b.items st
      obtain ⟨m2, a2, f2, c2⟩ :=
        runBatches_counts fc rf rest (runItems fc rf b.game b.platform st b.items).1
      simp only [runBatches]
      by_cases hcont : (runItems fc rf b.game b.platform st b.items).2.2
      · rw [if_pos hcont]
        dsimp only
        refine ⟨fun u hu => m2 u (m1 u hu), ?_, ?_, ?_⟩
        · intro t
          rw [attemptsOf_append]
          by_cases h1 : 1 ≤ attemptsOf t
              (runItems fc rf b.game b.platform st b.items).2.1
          · have hzero : attemptsOf t
                (runBatches fc rf (runItems fc rf b.game b.platform st b.items).1
                  rest).2 = 0 := by
              by_contra hne
              exact (f2 t (Nat.one_le_iff_ne_zero.mpr hne)).1 (f1 t h1).2
            have := a1 t
            omega
          · have := a2 t
            omega
        · intro t ht
          rw [attemptsOf_append] at ht
          by_cases h1 : 1 ≤ attemptsOf t
              (runItems fc rf b.game b.platform st b.items).2.1
          · exact ⟨(f1 t h1).1, m2 t (f1 t h1).2⟩
          · have h2 : 1 ≤ attemptsOf t
                (runBatches fc rf (runItems fc rf b.game b.platform st b.items).1
                  rest).2 := by
              omega
            exact ⟨fun hst => (f2 t h2).1 (m1 t hst), (f2 t h2).2⟩
        · intro t
          rw [attemptsOf_append, callsOf_append]
          have := c1 t
          have := c2 t
          omega
      · rw [if_neg hcont]
        exact ⟨m1, a1, f1, c1⟩

/-- C5 counterexample: the claim as stated — the remote redemption call runs
at most once per triple — fails at a concrete run in which the first call is
rate-limited: the one-shot retry invokes the remote call a second time for the
same `(normalized code, game, platform)` triple. -/
theorem C5_dedup_counterexample :
    callsOf ("c", "bl3", "steam")
      (runBatches (fun _ _ _ => some (sampleCand, Disposition.attempt))
        (fun _ retry => if retry then ShiftStatus.SUCCESS else ShiftStatus.SLOWDOWN)
        { processed := [], clearedPre := [] }
        [{ game := "bl3", platform := "steam",
           items := [{ code := "c", modeSkip := false }] }]).2 = 2 := by
  decide

/-- C5 as amended: within one bulk run, each `(normalized code, game,
platform)` triple enters the per-candidate redemption step at most once, even
across batches — enforced by the `processed_pairs` seen-set — and since one
redemption step makes at most two raw remote calls (the single rate-limit
retry), the remote redemption call is invoked at most twice per triple. -/
theorem C5_seen_set_dedup
    (fc : String → String → String → Option (RedemptionCandidate × Disposition))
    (rf : String × String × String → Bool → ShiftStatus)
    (batches : List Batch) (t : String × String × String) :
    attemptsOf t (runBatches fc rf { processed := [], clearedPre := [] } batches).2 ≤ 1
    ∧ callsOf t (runBatches fc rf { processed := [], clearedPre := [] } batches).2 ≤ 2 := by
  obtain ⟨-, a, -, c⟩ :=
    runBatches_counts fc rf batches { processed := [], clearedPre := [] }
  have ha := a t
  have hc := c t
  omega

/-- C6: when a candidate's first remote call is rate-limited and the retry is
rate-limited again, the execution loop sleeps 60 units between the two calls,
makes no third call, records a failure labeled `TRYLATER` for the candidate,
and processes no further item of the batch (the run returns). -/
theorem C6_double_slowdown_trylater
    (fc : String → String → String → Option (RedemptionCandidate × Disposition))
    (rf : String × String × String → Bool → ShiftStatus)
    (g p : String) (st : RunState) (item : QueueItem) (rest : List QueueItem)
    (cand : RedemptionCandidate) (t : String × String × String)
    (hmode : item.modeSkip = false)
    (ht : t = (normCode item, g, p))
    (hfind : fc (normCode item) g p = some (cand, Disposition.attempt))
    (hnew : t ∉ st.processed)
    (hs1 : rf t false = ShiftStatus.SLOWDOWN)
    (hs2 : rf t true = ShiftStatus.SLOWDOWN) :
    runItems fc rf g p st (item :: rest)
      = ({ st with processed := t :: st.processed },
         [RunEvent.attemptStart t, RunEvent.redeemCall t, RunEvent.sleepRetry t 60,
          RunEvent.redeemCall t, RunEvent.recordFailure t "TRYLATER"],
         false) := by
  subst ht
  have hrun : runAttempt rf (normCode item, g, p)
      = ([RunEvent.redeemCall (normCode item, g, p),
          RunEvent.sleepRetry (normCode item, g, p) 60,
          RunEvent.redeemCall (normCode item, g, p),
          RunEvent.recordFailure (normCode item, g, p) "TRYLATER"], false) := by
    rw [runAttempt]
    simp [hs1, hs2, isPositiveStatus, _failure_label_for_status]
  have hpi : processItem fc rf g p st item
      = ({ st with processed := (normCode item, g, p) :: st.processed },
         [RunEvent.attemptStart (normCode item, g, p),
          RunEvent.redeemCall (normCode item, g, p),
          RunEvent.sleepRetry (normCode item, g, p) 60,
          RunEvent.redeemCall (normCode item, g, p),
          RunEvent.recordFailure (normCode item, g, p) "TRYLATER"], false) := by
    rw [processItem, if_neg (by simp [hmode]), hfind]
    dsimp only
    rw [if_neg hnew, hrun]
  simp only [runItems, hpi]
  rw [if_neg (by simp)]

/-- Sample plan lookup marking every triple an attempt candidate. -/
def alwaysAttempt : String → String → String → Option (RedemptionCandidate × Disposition) :=
  fun _ _ _ => some (sampleCand, Disposition.attempt)

/-- Sample remote endpoint that is rate-limited on every call. -/
def alwaysSlowdown : String × String × String → Bool → ShiftStatus :=
  fun _ _ => ShiftStatus.SLOWDOWN

/-- Witness for C6 at a concrete doubly rate-limited run with a second queued
item that is never processed. -/
theorem C6_double_slowdown_trylater_witness :
    (({ code := "c", modeSkip := false } : QueueItem).modeSkip = false
      ∧ (("c", "bl3", "steam") : String × String × String)
          = (normCode { code := "c", modeSkip := false }, "bl3", "steam")
      ∧ alwaysAttempt (normCode { code := "c", modeSkip := false }) "bl3" "steam"
          = some (sampleCand, Disposition.attempt)
      ∧ (("c", "bl3", "steam") : String × String × String)
          ∉ ({ processed := [], clearedPre := [] } : RunState).processed
      ∧ alwaysSlowdown ("c", "bl3", "steam") false = ShiftStatus.SLOWDOWN
      ∧ alwaysSlowdown ("c", "bl3", "steam") true = ShiftStatus.SLOWDOWN)
    ∧ runItems alwaysAttempt alwaysSlowdown "bl3" "steam"
        { processed := [], clearedPre := [] }
        [{ code := "c", modeSkip := false }, { code := "d", modeSkip := false }]
      = ({ processed := [("c", "bl3", "steam")], clearedPre := [] },
         [RunEvent.attemptStart ("c", "bl3", "steam"),
          RunEvent.redeemCall ("c", "bl3", "steam"),
          RunEvent.sleepRetry ("c", "bl3", "steam") 60,
          RunEvent.redeemCall ("c", "bl3", "steam"),
          RunEvent.recordFailure ("c", "bl3", "steam") "TRYLATER"],
         false) :=
  ⟨⟨rfl, by decide, by decide, by decide, rfl, rfl⟩,
    C6_double_slowdown_trylater alwaysAttempt alwaysSlowdown "bl3" "steam"
      { processed := [], clearedPre := [] } { code := "c", modeSkip := false }
      [{ code := "d", modeSkip := false }] sampleCand ("c", "bl3", "steam")
      rfl (by decide) (by decide) (by decide) rfl rfl⟩

/-- No TRYLATER-labeled failure row appears among the events. -/
def cleanEvs (evs : List RunEvent) : Prop :=
  ∀ t, RunEvent.recordFailure t "TRYLATER" ∉ evs

/-- A TRYLATER-labeled failure row can only be the final event, and forces the
continue flag off; when the flag stays on there is no such row at all. -/
def TrylaterFinal (evs : List RunEvent) (cont : Bool) : Prop :=
  (cont = true → cleanEvs evs)
  ∧ ∀ t, RunEvent.recordFailure t "TRYLATER" ∈ evs →
      ∃ pre, evs = pre ++ [RunEvent.recordFailure t "TRYLATER"] ∧ cleanEvs pre ∧ cont = false

/-- A TRYLATER-labeled failure row can only be the final event. -/
def TrylaterLast (evs : List RunEvent) : Prop :=
  ∀ t, RunEvent.recordFailure t "TRYLATER" ∈ evs →
      ∃ pre, evs = pre ++ [RunEvent.recordFailure t "TRYLATER"] ∧ cleanEvs pre

/-- The failure label is `TRYLATER` exactly for the TRYLATER status. -/
lemma failureLabel_eq_trylater {s : ShiftStatus} :
    _failure_label_for_status s = "TRYLATER" ↔ s = ShiftStatus.TRYLATER := by
  cases s <;> simp [_failure_label_for_status, statusName]

/-- An event list without TRYLATER-labeled failures satisfies the final-event
property for any flag. -/
lemma trylaterFinal_of_clean (evs : List RunEvent) (cont : Bool) (h : cleanEvs evs) :
    TrylaterFinal evs cont :=
  ⟨fun _ => h, fun t hm => absurd hm (h t)⟩

/-- The final-event property survives consing a non-failure event. -/
lemma trylaterFinal_cons (e : RunEvent) (evs : List RunEvent) (cont : Bool)
    (he : ∀ t, e ≠ RunEvent.recordFailure t "TRYLATER")
    (h : TrylaterFinal evs cont) : TrylaterFinal (e :: evs) cont := by
  obtain ⟨h1, h2⟩ := h
  constructor
  · intro hc t hm
    rcases List.mem_cons.mp hm with hm | hm
    · exact he t hm.symm
    · exact h1 hc t hm
  · intro t hm
    rcases List.mem_cons.mp hm with hm | hm
    · exact absurd hm.symm (he t)
    · obtain ⟨pre, heq, hclean, hcont⟩ := h2 t hm
      refine ⟨e :: pre, by rw [heq, List.cons_append], ?_, hcont⟩
      intro u hu
      rcases List.mem_cons.mp hu with hu | hu
      · exact he u hu.symm
      · exact hclean u hu

/-- The final-event property composes over append when the left part kept the
run going. -/
lemma trylaterFinal_append (e1 e2 : List RunEvent) (c2 : Bool)
    (h1 : TrylaterFinal e1 true) (h2 : TrylaterFinal e2 c2) :
    TrylaterFinal (e1 ++ e2) c2 := by
  have hclean1 : cleanEvs e1 := h1.1 rfl
  constructor
  · intro hc t hm
    rcases List.mem_append.mp hm with hm | hm
    · exact hclean1 t hm
    · exact h2.1 hc t hm
  · intro t hm
    rcases List.mem_append.mp hm with hm | hm
    · exact absurd hm (hclean1 t)
    · obtain ⟨pre, heq, hclean, hcont⟩ := h2.2 t hm
      refine ⟨e1 ++ pre, by rw [heq, List.append_assoc], ?_, hcont⟩
      intro u hu
      rcases List.mem_append.mp hu with hu | hu
      · exact hclean1 u hu
      · exact hclean u hu

/-- A failure row appended to failure-free events satisfies the final-event
property with the TRYLATER-driven continue flag. -/
lemma trylaterFinal_failure_tail (core : List RunEvent)
    (t : String × String × String) (s : ShiftStatus)
    (hcore : ∀ t' lbl, RunEvent.recordFailure t' lbl ∉ core) :
    TrylaterFinal (core ++ [RunEvent.recordFailure t (_failure_label_for_status s)])
      (decide (s ≠ ShiftStatus.TRYLATER)) := by
  constructor
  · intro hcont t' hmem
    have hs : s ≠ ShiftStatus.TRYLATER := of_decide_eq_true hcont
    rcases List.mem_append.mp hmem with h | h
    · exact hcore t' _ h
    · simp only [List.mem_singleton, RunEvent.recordFailure.injEq] at h
      exact hs (failureLabel_eq_trylater.mp h.2.symm)
  · intro t' hmem
    rcases List.mem_append.mp hmem with h | h
    · exact absurd h (hcore t' _)
    · simp only [List.mem_singleton, RunEvent.recordFailure.injEq] at h
      obtain ⟨rfl, hlbl⟩ := h
      have hs : s = ShiftStatus.TRYLATER := failureLabel_eq_trylater.mp hlbl.symm
      subst hs
      refine ⟨core, rfl, fun u hu => hcore u _ hu, by decide⟩

/-- `runAttempt` satisfies the final-event property. -/
lemma runAttempt_trylater (rf : String × String × String → Bool → ShiftStatus)
    (t : String × String × String) :
    TrylaterFinal (runAttempt rf t).1 (runAttempt rf t).2 := by
  rw [runAttempt]
  by_cases h1 : rf t false = ShiftStatus.SLOWDOWN
  · rw [if_pos h1]
    by_cases h2 : isPositiveStatus (rf t true)
    · simp only [h2, if_true]
      exact trylaterFinal_of_clean _ _ (by intro u; simp)
    · rw [if_neg h2, if_neg h2]
      simp only [List.append_nil]
      exact trylaterFinal_failure_tail
        [RunEvent.redeemCall t, RunEvent.sleepRetry t 60, RunEvent.redeemCall t] t _
        (by intro u lbl; simp)
  · rw [if_neg h1]
    by_cases h2 : isPositiveStatus (rf t false)
    · simp only [h2, if_true]
      exact trylaterFinal_of_clean _ _ (by intro u; simp)
    · rw [if_neg h2, if_neg h2]
      simp only [List.append_nil]
      exact trylaterFinal_failure_tail [RunEvent.redeemCall t] t _
        (by intro u lbl; simp)

/-- `processItem` satisfies the final-event property, given that plan
candidates only carry `none` or `EXPIRED` preclassified statuses (which is how
`_apply_skip_logic` builds them). -/
lemma processItem_trylater
    (fc : String → String → String → Option (RedemptionCandidate × Disposition))
    (rf : String × String × String → Bool → ShiftStatus)
    (g p : String) (st : RunState) (item : QueueItem)
    (hpre : ∀ nc g' p' c d, fc nc g' p' = some (c, d) →
        c.preclassified_status = none ∨ c.preclassified_status = some "EXPIRED") :
    TrylaterFinal (processItem fc rf g p st item).2.1
      (processItem fc rf g p st item).2.2 := by
  rw [processItem]
  by_cases hmode : item.modeSkip
  · rw [if_pos hmode]
    exact trylaterFinal_of_clean _ _ (by intro u; simp)
  · rw [if_neg hmode]
    rcases hfc : fc (normCode item) g p with _ | ⟨cand, disp⟩
    · exact trylaterFinal_of_clean _ _ (by intro u; simp)
    · cases disp with
      | skip =>
          dsimp only
          split_ifs with hrec
          · have hlbl : cand.preclassified_status.getD "EXPIRED" = "EXPIRED" := by
              rcases hpre _ _ _ _ _ hfc with h | h <;> simp [h]
            refine trylaterFinal_of_clean _ _ ?_
            intro u hu
            simp [hlbl] at hu
          · exact trylaterFinal_of_clean _ _ (by intro u; simp)
      | attempt =>
          dsimp only
          split_ifs with hproc
          · exact trylaterFinal_of_clean _ _ (by intro u; simp)
          · exact trylaterFinal_cons _ _ _ (by intro u; simp)
              (runAttempt_trylater rf (normCode item, g, p))

/-- `runItems` satisfies the final-event property. -/
lemma runItems_trylater
    (fc : String → String → String → Option (RedemptionCandidate × Disposition))
    (rf : String × String × String → Bool → ShiftStatus) (g p : String)
    (hpre : ∀ nc g' p' c d, fc nc g' p' = some (c, d) →
        c.preclassified_status = none ∨ c.preclassified_status = some "EXPIRED") :
    ∀ (items : List QueueItem) (st : RunState),
      TrylaterFinal (runItems fc rf g p st items).2.1 (runItems fc rf g p st items).2.2
  | [], st => by
      refine trylaterFinal_of_clean _ _ ?_
      intro u
      simp [runItems]
  | item :: rest, st => by
      have h1 := processItem_trylater fc rf g p st item hpre
      have h2 := runItems_trylater fc rf g p hpre rest (processItem fc rf g p st item).1
      simp only [runItems]
      by_cases hcont : (processItem fc rf g p st item).2.2
      · rw [if_pos hcont]
        dsimp only
        rw [hcont] at h1
        exact trylaterFinal_append _ _ _ h1 h2
      · rw [if_neg hcont]
        dsimp only
        rw [Bool.not_eq_true] at hcont
        rw [hcont] at h1
        exact h1

/-- `runBatches` satisfies the final-event property. -/
lemma runBatches_trylater
    (fc : String → String → String → Option (RedemptionCandidate × Disposition))
    (rf : String × String × String → Bool → ShiftStatus)
    (hpre : ∀ nc g' p' c d, fc nc g' p' = some (c, d) →
        c.preclassified_status = none ∨ c.preclassified_status = some "EXPIRED") :
    ∀ (batches : List Batch) (st : RunState),
      TrylaterLast (runBatches fc rf st batches).2
  | [], st => by
      intro u hm
      simp [runBatches] at hm
  | b :: rest, st => by
      have h1 := runItems_trylater fc rf b.game b.platform hpre b.items st
      have h2 := runBatches_trylater fc rf hpre rest
        (runItems fc rf b.game b.platform st b.items).1
      simp only [runBatches]
      by_cases hcont : (runItems fc rf b.game b.platform st b.items).2.2
      · rw [if_pos hcont]
        dsimp only
        intro t hm
        have hclean1 : cleanEvs (runItems fc rf b.game b.platform st b.items).2.1 :=
          h1.1 hcont
        rcases List.mem_append.mp hm with hm | hm
        · exact absurd hm (hclean1 t)
        · obtain ⟨pre, heq, hcl⟩ := h2 t hm
          refine ⟨(runItems fc rf b.game b.platform st b.items).2.1 ++ pre,
            by rw [heq, List.append_assoc], ?_⟩
          intro u hu
          rcases List.mem_append.mp hu with hu | hu
          · exact hclean1 u hu
          · exact hcl u hu
      · rw [if_neg hcont]
        dsimp only
        intro t hm
        obtain ⟨pre, heq, hcl, -⟩ := h1.2 t hm
        exact ⟨pre, heq, hcl⟩

/-- A marked element that also closes the list can only sit at the end. -/
lemma last_split_nil {α : Type} {l₁ l₂ pre : List α} {x : α}
    (h : l₁ ++ x :: l₂ = pre ++ [x]) (hx : x ∉ pre) : l₂ = [] := by
  by_contra hne
  have hdl : (l₁ ++ x :: l₂).dropLast = l₁ ++ x :: l₂.dropLast := by
    rw [List.dropLast_append_cons]
    cases l₂ with
    | nil => exact absurd rfl hne
    | cons b tail => simp [List.dropLast_cons₂]
  have hmem : x ∈ (l₁ ++ x :: l₂).dropLast := by
    rw [hdl]
    exact List.mem_append_right _ (List.mem_cons_self _ _)
  rw [h, List.dropLast_concat] at hmem
  exact hx hmem

/-- C10: a TRYLATER outcome does not merely end its `(game, platform)` batch:
it ends the entire bulk run, so a TRYLATER-labeled failure record is always
the final event of the run — no candidate of any later batch (or later in the
same batch) is attempted or recorded after it.  The hypothesis on `findCand`
states the invariant under which `_apply_skip_logic` builds plan candidates:
preclassified statuses are only `none` or `EXPIRED`. -/
theorem C10_trylater_ends_run
    (fc : String → String → String → Option (RedemptionCandidate × Disposition))
    (rf : String × String × String → Bool → ShiftStatus)
    (st : RunState) (batches : List Batch)
    (hpre : ∀ nc g' p' c d, fc nc g' p' = some (c, d) →
        c.preclassified_status = none ∨ c.preclassified_status = some "EXPIRED")
    (l₁ l₂ : List RunEvent) (t : String × String × String)
    (hsplit : (runBatches fc rf st batches).2
        = l₁ ++ RunEvent.recordFailure t "TRYLATER" :: l₂) :
    l₂ = [] := by
  have hmem : RunEvent.recordFailure t "TRYLATER" ∈ (runBatches fc rf st batches).2 := by
    rw [hsplit]
    exact List.mem_append_right _ (List.mem_cons_self _ _)
  obtain ⟨pre, heq, hclean⟩ := runBatches_trylater fc rf hpre batches st t hmem
  rw [hsplit] at heq
  exact last_split_nil heq (hclean t)

/-- Witness for C10: a concrete doubly rate-limited run whose trace ends at
the TRYLATER failure record. -/
theorem C10_trylater_ends_run_witness :
    ((∀ nc g' p' c d, alwaysAttempt nc g' p' = some (c, d) →
        c.preclassified_status = none ∨ c.preclassified_status = some "EXPIRED")
      ∧ (runBatches alwaysAttempt alwaysSlowdown
          { processed := [], clearedPre := [] }
          [{ game := "bl3", platform := "steam",
             items := [{ code := "c", modeSkip := false },
                       { code := "d", modeSkip := false }] },
           { game := "bl3", platform := "epic",
             items := [{ code := "c", modeSkip := false }] }]).2
        = [RunEvent.attemptStart ("c", "bl3", "steam"),
           RunEvent.redeemCall ("c", "bl3", "steam"),
           RunEvent.sleepRetry ("c", "bl3", "steam") 60,
           RunEvent.redeemCall ("c", "bl3", "steam")]
          ++ RunEvent.recordFailure ("c", "bl3", "steam") "TRYLATER" :: [])
    ∧ ([] : List RunEvent) = [] :=
  ⟨⟨by
      intro nc g' p' c d h
      simp only [alwaysAttempt, Option.some.injEq, Prod.mk.injEq] at h
      rw [← h.1]
      exact Or.inl rfl,
    by decide⟩,
    C10_trylater_ends_run alwaysAttempt alwaysSlowdown
      { processed := [], clearedPre := [] }
      [{ game := "bl3", platform := "steam",
         items := [{ code := "c", modeSkip := false },
                   { code := "d", modeSkip := false }] },
       { game := "bl3", platform := "epic",
         items := [{ code := "c", modeSkip := false }] }]
      (by
        intro nc g' p' c d h
        simp only [alwaysAttempt, Option.some.injEq, Prod.mk.injEq] at h
        rw [← h.1]
        exact Or.inl rfl)
      [RunEvent.attemptStart ("c", "bl3", "steam"),
       RunEvent.redeemCall ("c", "bl3", "steam"),
       RunEvent.sleepRetry ("c", "bl3", "steam") 60,
       RunEvent.redeemCall ("c", "bl3", "steam")]
      [] ("c", "bl3", "steam") (by decide)⟩

end Autoshift
